import Mathlib

/-!
Verification of the gbaspritenav decode core (`src/gbaspritenav.py`).

The Python source is shallowly embedded: byte strings become `List Nat`
(each element a byte value), Python exceptions become an explicit
`Except PyErr` result, and the GTK pixbuf objects are modelled by their
pixel dimensions together with their flat RGB byte buffer.  Indexing
into a Python list or bytes object (`l[i]`), which raises `IndexError`
when out of range, is modelled by `pyGet`; `struct.unpack('H', ...)`,
which raises `struct.error` on a buffer shorter than two bytes, is
modelled by `unpackH`.
-/

namespace GbaSpriteNav

/-- Python exceptions that can escape from the decode core:
`IndexError` from list/bytes indexing, `struct.error` from
`struct.unpack`, and `ValueError` from `range` with a zero step. -/
inductive PyErr where
  | indexError
  | structError
  | valueError
deriving DecidableEq, Repr

instance {ε α : Type _} [DecidableEq ε] [DecidableEq α] :
    DecidableEq (Except ε α) := fun x y =>
  match x, y with
  | .ok a, .ok b =>
    if h : a = b then .isTrue (by rw [h])
    else .isFalse (by intro hc; cases hc; exact h rfl)
  | .error a, .error b =>
    if h : a = b then .isTrue (by rw [h])
    else .isFalse (by intro hc; cases hc; exact h rfl)
  | .ok _, .error _ => .isFalse (by intro hc; cases hc)
  | .error _, .ok _ => .isFalse (by intro hc; cases hc)

/-- Source line 33: `ROW = 4` (one row of a tile is 4 packed bytes). -/
def ROW : Nat := 4

/-- Source line 34: `BLOCK = ROW * 8` (one 8x8 tile is 32 packed bytes);
the nearby comment claims 24 bytes, but the arithmetic used is `ROW * 8`. -/
def BLOCK : Nat := ROW * 8

/-- Fuel-driven worker for `cut`; the fuel is an upper bound on the length
of the list being chopped, so the recursion is structural. -/
def cutAux (n : Nat) : Nat → List α → List (List α)
  | _, [] => []
  | 0, _ :: _ => []
  | fuel + 1, a :: as => ((a :: as).take n) :: cutAux n fuel ((a :: as).drop n)

/-- Source lines 37-38:
`def cut(iterable, chunksize): return [iterable[i:i+chunksize] for i in range(0, len(iterable), chunksize)]`.
For a positive chunk size this chops the list into consecutive chunks of
`n` elements, the last chunk possibly shorter.  (With chunk size 0 Python's
`range` would raise `ValueError`; the program never calls `cut` that way,
and we return `[]` in that degenerate case.) -/
def cut (l : List α) (n : Nat) : List (List α) :=
  if n = 0 then [] else cutAux n l.length l

/-- Python indexing `l[i]`: the element when in range, `IndexError` otherwise. -/
def pyGet (l : List α) (i : Nat) : Except PyErr α :=
  match l.get? i with
  | some a => .ok a
  | none => .error .indexError

/-- A palette (source lines 138-151): an offset and a list of colors,
each color a `[R, G, B]` triple of byte values. -/
structure Palette where
  offset : Nat
  colors : List (List Nat)
deriving DecidableEq, Repr

/-- Source line 146: `struct.unpack('H', c[0:2])` reads a chunk as one
little-endian unsigned 16-bit value; it raises `struct.error` when the
chunk holds fewer than two bytes. -/
def unpackH (chunk : List Nat) : Except PyErr Nat :=
  match chunk.take 2 with
  | [b0, b1] => .ok (b0 + 256 * b1)
  | _ => .error .structError

/-- Source lines 147-151: the conversion of one packed 15-bit value with
layout `0BBBBBGGGGGRRRRR` to an `[R, G, B]` triple, five bits per channel,
each scaled to eight bits by multiplying by 8. -/
def colorOfValue (c : Nat) : List Nat :=
  [(c &&& 0x001F) * 8, ((c &&& 0x03E0) >>> 5) * 8, ((c &&& 0x7C00) >>> 10) * 8]

/-- Source lines 139-151, `Palette.__init__`: empty data gives an empty
color table; otherwise the data is cut into 2-byte chunks, each unpacked
as a little-endian 16-bit value, and each value is converted to an RGB
triple by `colorOfValue`.  The two Python list comprehensions are embedded
as a left-to-right `foldlM` (the first one can raise `struct.error`)
followed by a `map`. -/
def paletteNew (data : List Nat) (offset : Nat) : Except PyErr Palette :=
  if data = [] then .ok ⟨offset, []⟩
  else do
    let colors ← (cut data 2).foldlM (fun acc c => do
      let v ← unpackH c
      pure (acc ++ [v])) ([] : List Nat)
    .ok ⟨offset, colors.map colorOfValue⟩

/-- A pixel buffer: dimensions in pixels plus the flat RGB byte buffer
(three consecutive bytes per pixel, rows stored top to bottom). -/
structure ImageData where
  width : Nat
  height : Nat
  pixels : List Nat
deriving DecidableEq, Repr

/-- The RGB triple of the pixel at row `r`, column `c` of a buffer. -/
def pixelChannels (img : ImageData) (r c : Nat) : List Nat :=
  (img.pixels.drop (3 * (r * img.width + c))).take 3

/-- Source lines 130-131: `pixbuf.scale_simple(2*w, 2*h, InterpType.NEAREST)`,
nearest-neighbour upscaling by a factor of two: destination pixel `(r, c)`
copies source pixel `(r / 2, c / 2)`. -/
def scale2x (img : ImageData) : ImageData :=
  ⟨2 * img.width, 2 * img.height,
    (List.range (2 * img.height)).flatMap fun r =>
      (List.range (2 * img.width)).flatMap fun c =>
        pixelChannels img (r / 2) (c / 2)⟩

/-- Source lines 93-95: the dummy pixbuf, created directly at the doubled
display size `(8*w*2) x (8*h*2)` and filled with `0xAAAAAAFF`, i.e. every
pixel is RGB `(170, 170, 170)`. -/
def dummyPixbuf (size : Nat × Nat) : ImageData :=
  ⟨size.1 * 8 * 2, size.2 * 8 * 2,
    List.replicate (size.2 * 8 * 2 * (size.1 * 8 * 2) * 3) 170⟩

/-- Source lines 114-116 for one 4-byte row `r`: each byte `v` yields the
pixel index `v & 0x0F` immediately followed by `v >> 4`. -/
def unpackRow (r : List Nat) : List Nat :=
  (List.range 4).flatMap fun j => [r.getD j 0 &&& 0x0F, r.getD j 0 >>> 4]

/-- Modelled from the spec: the `TileUnpacker` component.  In the source it
is the sub-row loop of `Image.__init__` (lines 109-116) specialised to a
single tile: the 32 tile bytes are cut into 8 rows of `ROW` bytes and each
row is unpacked with `unpackRow`. -/
def tileUnpack (tile : List Nat) : List (List Nat) :=
  (cut tile ROW).map unpackRow

/-- Source lines 105-116: the `bytestring` loop of `Image.__init__`.
`blocks` is the thrice-nested structure built on lines 99-103; the loop
appends, for each block row `y`, sub-row `i` and block column `x`, the
eight pixel indices of `blocks[y][x][i]`.  Python's raising indexing is
threaded through `Except` by `pyGet`. -/
def bytestringE (blocks : List (List (List (List Nat)))) (size : Nat × Nat) :
    Except PyErr (List Nat) :=
  (List.range size.2).foldlM (fun acc y =>
    (List.range (BLOCK / ROW)).foldlM (fun acc i =>
      (List.range size.1).foldlM (fun acc x => do
        let row ← pyGet blocks y
        let col ← pyGet row x
        let r ← pyGet col i
        (List.range 4).foldlM (fun acc j => do
          let b ← pyGet r j
          pure (acc ++ [b &&& 0x0F, b >>> 4])) acc) acc) acc) []

/-- Source lines 119-121: `for i in bytestring: result += palette.colors[i]`
(raising `IndexError` when an index is not covered by the palette). -/
def applyPaletteE (palette : Palette) (bytestring : List Nat) :
    Except PyErr (List Nat) :=
  bytestring.foldlM (fun acc i => do
    let c ← pyGet palette.colors i
    pure (acc ++ c)) []

/-- Source lines 98-124 of `Image.__init__` (decoded path): slice the data
into blocks, blocks into rows, group into block rows, run the pixel-index
loop, and apply the palette, giving the flat RGB buffer `result`. -/
def imageResult (data : List Nat) (size : Nat × Nat) (palette : Palette) :
    Except PyErr (List Nat) := do
  let blocks := cut data BLOCK
  let blocks := blocks.map (fun b => cut b ROW)
  let blocks := cut blocks size.1
  let bytestring ← bytestringE blocks size
  applyPaletteE palette bytestring

/-- Source lines 90-131, `Image.__init__`: empty data yields the dummy
pixbuf; otherwise the decoded `8*w x 8*h` buffer `result` is wrapped in a
pixbuf and scaled by two for display. -/
def imageNew (data : List Nat) (size : Nat × Nat) (palette : Palette) :
    Except PyErr ImageData :=
  if data = [] then .ok (dummyPixbuf size)
  else do
    let result ← imageResult data size palette
    .ok (scale2x ⟨8 * size.1, 8 * size.2, result⟩)

/-- A sprite (source lines 75-82): metadata plus the decoded image. -/
structure Sprite where
  name : String
  offset : Nat
  size : Nat × Nat
  length : Nat
  palette : Palette
  image : ImageData
deriving DecidableEq, Repr

/-- Source lines 76-82, `Sprite.__init__`. -/
def spriteNew (data : List Nat) (offset : Nat) (size : Nat × Nat)
    (palette : Palette) : Except PyErr Sprite := do
  let image ← imageNew data size palette
  .ok ⟨"", offset, size, size.1 * size.2 * BLOCK, palette, image⟩

/-- One read performed against the underlying file: the absolute position
of the file cursor when the read was issued, the number of bytes
requested, and the number of bytes actually returned. -/
structure ReadEvent where
  pos : Nat
  requested : Nat
  returned : Nat
deriving DecidableEq, Repr

/-- Python `f.read(n)` after positioning the cursor at `pos`: returns the
next `n` bytes, or fewer (possibly none) when the file ends first. -/
def fread (content : List Nat) (pos n : Nat) : List Nat :=
  (content.drop pos).take n

/-- Source lines 66-68: the sprite loop of `ROM.search`.  Reads advance the
file cursor by the number of bytes actually returned; the loop variable
`os` is only recorded as the sprite's offset.  Exceptions raised by
`Sprite` construction propagate (only `FileNotFoundError` is caught in
`search`). -/
def searchLoop (content : List Nat) (size : Nat × Nat) (palette : Palette)
    (length : Nat) :
    List Nat → Nat → List Sprite → List ReadEvent →
      Except PyErr (List Sprite × List ReadEvent)
  | [], _, sprites, trace => .ok (sprites, trace)
  | os :: rest, pos, sprites, trace => do
    let data := fread content pos length
    let sprite ← spriteNew data os size palette
    searchLoop content size palette length rest (pos + data.length)
      (sprites ++ [sprite]) (trace ++ [⟨pos, length, data.length⟩])

/-- Source lines 55-72, `ROM.search`.  A missing file (`FileNotFoundError`
on open, modelled by `none`) is caught and yields the empty sprite list.
Otherwise: seek to `paloffset` and read 32 bytes for the palette, compute
`length = size[0] * size[1] * BLOCK`, seek to `offset`, and read one
sprite of `length` bytes per requested quantity.  Python's
`range(offset, offset + qty*length, length)` raises `ValueError` when the
step `length` is zero and otherwise enumerates `offset + i*length` for
`i < qty`. -/
def search (file : Option (List Nat)) (offset : Nat) (size : Nat × Nat)
    (paloffset : Nat) (qty : Nat) : Except PyErr (List Sprite × List ReadEvent) :=
  match file with
  | none => .ok ([], [])
  | some content => do
    let palData := fread content paloffset 32
    let palette ← paletteNew palData paloffset
    let length := size.1 * size.2 * BLOCK
    if length = 0 then .error .valueError
    else
      searchLoop content size palette length
        ((List.range qty).map fun i => offset + i * length) offset []
        [⟨paloffset, 32, palData.length⟩]

/-- The 4-byte packed row of sub-row `i` of tile `(y, x)` inside the raw
sprite data, tiles stored row-major `w` per tile-row. -/
def tileRowBytes (data : List Nat) (w y x i : Nat) : List Nat :=
  (data.drop ((y * w + x) * BLOCK + i * ROW)).take ROW

/-- The pixel-index sequence produced by the `bytestring` loop when every
access is in range, written as nested flat maps. -/
def bytestringPure (data : List Nat) (w h : Nat) : List Nat :=
  (List.range h).flatMap fun y =>
    (List.range 8).flatMap fun i =>
      (List.range w).flatMap fun x =>
        unpackRow (tileRowBytes data w y x i)

/-- The pixel index of scanline `s`, column `c` of the decoded image,
computed directly from the raw data: the byte sits in tile
`(s / 8, c / 8)`, packed row `s % 8`, byte `(c % 8) / 2`, and an even
column takes the low nibble, an odd column the high nibble. -/
def pixelIndexAt (data : List Nat) (w s c : Nat) : Nat :=
  let b := data.getD ((s / 8 * w + c / 8) * BLOCK + s % 8 * ROW + c % 8 / 2) 0
  if c % 2 = 0 then b &&& 0x0F else b >>> 4

/-- Modelled from the spec: the decoder-contract placeholder buffer of
`assemblePlaceholder` — the unscaled `8*w x 8*h` image with every pixel
the sentinel gray.  The code's dummy pixbuf (`dummyPixbuf`) is exactly
this buffer after the same 2x nearest-neighbour display scaling that the
decoded path receives. -/
def placeholderPixels (size : Nat × Nat) : List Nat :=
  List.replicate (8 * size.2 * (8 * size.1) * 3) 170

/-- Whether, reading sequentially from `pos` with `n` reads of `L` bytes,
every read returns either all `L` requested bytes or none at all. -/
def allOrZero (content : List Nat) (L : Nat) : Nat → Nat → Bool
  | _, 0 => true
  | pos, n + 1 =>
    ((fread content pos L).length == L || (fread content pos L).length == 0) &&
      allOrZero content L (pos + (fread content pos L).length) n

theorem cutAux_congr_fuel {n : Nat} (hn : 0 < n) :
    ∀ (f₁ : Nat) (l : List α) (f₂ : Nat), l.length ≤ f₁ → l.length ≤ f₂ →
      cutAux n f₁ l = cutAux n f₂ l := by
  intro f₁
  induction f₁ with
  | zero =>
    intro l f₂ h₁ _
    have : l = [] := List.eq_nil_of_length_eq_zero (Nat.le_zero.mp h₁)
    subst this
    cases f₂ <;> rfl
  | succ f ih =>
    intro l f₂ h₁ h₂
    cases l with
    | nil => cases f₂ <;> rfl
    | cons a as =>
      cases f₂ with
      | zero => exact absurd h₂ (by simp)
      | succ f' =>
        simp only [cutAux]
        congr 1
        apply ih
        · have : ((a :: as).drop n).length = (a :: as).length - n := List.length_drop n _
          omega
        · have : ((a :: as).drop n).length = (a :: as).length - n := List.length_drop n _
          omega

theorem cut_nil (n : Nat) : cut ([] : List α) n = [] := by
  unfold cut
  split <;> rfl

theorem cut_cons {n : Nat} (hn : 0 < n) (a : α) (as : List α) :
    cut (a :: as) n = ((a :: as).take n) :: cut ((a :: as).drop n) n := by
  unfold cut
  rw [if_neg (Nat.pos_iff_ne_zero.mp hn), if_neg (Nat.pos_iff_ne_zero.mp hn)]
  show cutAux n (as.length + 1) (a :: as) = _
  cases as with
  | nil =>
    simp only [cutAux]
    congr 1
    apply cutAux_congr_fuel hn
    · simp
      omega
    · exact Nat.le_refl _
  | cons b bs =>
    simp only [cutAux]
    congr 1
    apply cutAux_congr_fuel hn
    · have := List.length_drop n (a :: b :: bs)
      simp at this ⊢
      omega
    · exact Nat.le_refl _

/-- A list whose length is an exact multiple of the positive chunk size is
cut into exactly that many chunks. -/
theorem cut_length {n : Nat} (hn : 0 < n) :
    ∀ (k : Nat) (l : List α), l.length = k * n → (cut l n).length = k := by
  intro k
  induction k with
  | zero =>
    intro l hl
    have hz : l.length = 0 := by simpa using hl
    have : l = [] := List.eq_nil_of_length_eq_zero hz
    subst this
    rw [cut_nil]
    rfl
  | succ k ih =>
    intro l hl
    have hmul : (k + 1) * n = k * n + n := by ring
    cases l with
    | nil => simp at hl; omega
    | cons a as =>
      rw [cut_cons hn]
      have hdrop : ((a :: as).drop n).length = (a :: as).length - n := List.length_drop n _
      simp only [List.length_cons]
      rw [ih ((a :: as).drop n) (by omega)]

/-- Chunk `i` of `cut l n` is `(l.drop (i * n)).take n`. -/
theorem cut_get? {n : Nat} (hn : 0 < n) :
    ∀ (i k : Nat) (l : List α), l.length = k * n → i < k →
      (cut l n).get? i = some ((l.drop (i * n)).take n) := by
  intro i
  induction i with
  | zero =>
    intro k l hl hi
    cases l with
    | nil => simp at hl; omega
    | cons a as =>
      rw [cut_cons hn]
      simp
  | succ i ih =>
    intro k l hl hi
    have hk1 : 1 ≤ k := by omega
    have hmul : (k - 1) * n = k * n - n := by rw [Nat.sub_mul, Nat.one_mul]
    cases l with
    | nil =>
      simp at hl
      rcases hl with h | h <;> omega
    | cons a as =>
      rw [cut_cons hn]
      have hdrop : ((a :: as).drop n).length = (a :: as).length - n := List.length_drop n _
      have hkn : n ≤ k * n := by
        calc n = 1 * n := (Nat.one_mul n).symm
        _ ≤ k * n := Nat.mul_le_mul_right n hk1
      rw [List.get?_cons_succ]
      rw [ih (k - 1) ((a :: as).drop n) (by omega) (by omega)]
      rw [List.drop_drop]
      congr 3
      rw [Nat.succ_mul]
      omega

theorem pyGet_ok {l : List α} {i : Nat} (h : i < l.length) [Inhabited α] :
    pyGet l i = .ok (l.getD i default) := by
  unfold pyGet
  rw [List.getD_eq_get?]
  cases hg : l.get? i with
  | none => exact absurd (List.get?_eq_none.mp hg) (by omega)
  | some a => rfl

theorem pyGet_err {l : List α} {i : Nat} (h : l.length ≤ i) :
    pyGet l i = .error .indexError := by
  unfold pyGet
  rw [List.get?_eq_none.mpr h]

/-- Elements of a `take`-of-`drop` window, expressed in the base list
(both sides default when out of range, so no length hypothesis is needed). -/
theorem getD_take_drop (l : List α) (a j t : Nat) (d : α) (hj : j < t) :
    ((l.drop a).take t).getD j d = l.getD (a + j) d := by
  rw [List.getD_eq_get?, List.getD_eq_get?, List.get?_take hj, List.get?_drop]

theorem fread_length (content : List Nat) (pos n : Nat) :
    (fread content pos n).length = min n (content.length - pos) := by
  simp [fread]

theorem fread_full {content : List Nat} {pos n : Nat}
    (h : pos + n ≤ content.length) : (fread content pos n).length = n := by
  rw [fread_length]
  omega

theorem fread_nil {content : List Nat} {pos : Nat} (n : Nat)
    (h : content.length ≤ pos) : fread content pos n = [] := by
  unfold fread
  rw [List.drop_eq_nil_of_le h]
  simp

/-- An accumulator-style `foldlM` over `Except` whose every step succeeds
and appends a step-dependent chunk computes the flat map of the chunks. -/
theorem foldlM_ok_flatMap {ε α β : Type _} (g : α → List β) :
    ∀ (l : List α) (f : List β → α → Except ε (List β)),
      (∀ acc a, a ∈ l → f acc a = .ok (acc ++ g a)) →
      ∀ acc, l.foldlM f acc = .ok (acc ++ l.flatMap g) := by
  intro l
  induction l with
  | nil =>
    intro f _ acc
    simp [List.foldlM]
    rfl
  | cons a as ih =>
    intro f hf acc
    rw [List.foldlM_cons, hf acc a (by simp)]
    show as.foldlM f (acc ++ g a) = _
    rw [ih f (fun acc b hb => hf acc b (by simp [hb])) (acc ++ g a)]
    simp

/-- Length of a flat map whose pieces all have length `m`. -/
theorem flatMap_length_const {α β : Type _} (g : α → List β) (m : Nat) :
    ∀ l : List α, (∀ a ∈ l, (g a).length = m) → (l.flatMap g).length = l.length * m := by
  intro l
  induction l with
  | nil => intro _; simp
  | cons a as ih =>
    intro hg
    rw [List.flatMap_cons, List.length_append, hg a (by simp),
      ih (fun b hb => hg b (by simp [hb]))]
    simp [Nat.succ_mul]
    omega

/-- Piece `i` of a flat map with constant piece length `m` occupies the
window starting at `m * i`. -/
theorem flatMap_drop_take {α β : Type _} (g : α → List β) (m : Nat) :
    ∀ (l : List α) (i : Nat) (a : α), (∀ b ∈ l, (g b).length = m) →
      l.get? i = some a → ((l.flatMap g).drop (m * i)).take m = g a := by
  intro l
  induction l with
  | nil => intro i a _ h; simp at h
  | cons b bs ih =>
    intro i a hg h
    cases i with
    | zero =>
      simp only [List.get?_cons_zero, Option.some.injEq] at h
      subst h
      rw [List.flatMap_cons, Nat.mul_zero, List.drop_zero]
      have hb : (g b).length = m := hg b (by simp)
      rw [← hb, List.take_left]
    | succ i =>
      rw [List.get?_cons_succ] at h
      rw [List.flatMap_cons]
      have hsplit : m * (i + 1) = (g b).length + m * i := by
        rw [hg b (by simp)]
        ring
      rw [hsplit, ← List.drop_drop, List.drop_left]
      exact ih i a (fun c hc => hg c (by simp [hc])) h

/-- Element access inside a flat map with constant piece length. -/
theorem flatMap_get?_const {α β : Type _} {g : α → List β} {m : Nat}
    {l : List α} {i k : Nat} {a : α} (hg : ∀ b ∈ l, (g b).length = m)
    (hi : l.get? i = some a) (hk : k < m) :
    (l.flatMap g).get? (m * i + k) = (g a).get? k := by
  rw [← flatMap_drop_take g m l i a hg hi, List.get?_take hk, List.get?_drop]

theorem low_nibble_lt (b : Nat) : b &&& 0x0F < 16 :=
  Nat.lt_of_le_of_lt (Nat.and_le_right) (by norm_num)

theorem high_nibble_lt {b : Nat} (hb : b < 256) : b >>> 4 < 16 := by
  rw [Nat.shiftRight_eq_div_pow]
  omega

theorem list_eq_pair_of_length_two {l : List Nat} (h : l.length = 2) :
    l = [l.getD 0 0, l.getD 1 0] := by
  match l, h with
  | [a, b], _ => rfl

theorem unpackH_pair (b0 b1 : Nat) (rest : List Nat) :
    unpackH (b0 :: b1 :: rest) = .ok (b0 + 256 * b1) := rfl

/-- The three channels produced by `colorOfValue` are multiples of 8 and
at most 248 (so never 255). -/
theorem colorOfValue_bounds {ch c : Nat} (h : ch ∈ colorOfValue c) :
    ch % 8 = 0 ∧ ch ≤ 248 := by
  have h5 : c &&& 0x001F ≤ 31 := Nat.le_trans Nat.and_le_right (by norm_num)
  have hg : (c &&& 0x03E0) >>> 5 ≤ 31 := by
    rw [Nat.shiftRight_eq_div_pow]
    have : c &&& 0x03E0 ≤ 0x03E0 := Nat.and_le_right
    omega
  have hb : (c &&& 0x7C00) >>> 10 ≤ 31 := by
    rw [Nat.shiftRight_eq_div_pow]
    have : c &&& 0x7C00 ≤ 0x7C00 := Nat.and_le_right
    omega
  simp only [colorOfValue, List.mem_cons, List.not_mem_nil, or_false] at h
  rcases h with h | h | h <;> subst h <;>
    exact ⟨Nat.mul_mod_left _ 8, by omega⟩

theorem colorOfValue_length (c : Nat) : (colorOfValue c).length = 3 := rfl

/-- Success and full characterisation of `Palette.__init__` on data of
even length `k * 2`: the table has `k` colors, color `i` decoding the
little-endian 16-bit value found at bytes `2*i` and `2*i + 1`. -/
theorem paletteNew_even_ok (data : List Nat) (offset k : Nat)
    (hlen : data.length = k * 2) :
    ∃ p, paletteNew data offset = .ok p ∧ p.offset = offset ∧
      p.colors.length = k ∧
      (∀ i, i < k → p.colors.get? i =
        some (colorOfValue (data.getD (2 * i) 0 + 256 * data.getD (2 * i + 1) 0))) ∧
      ∀ col ∈ p.colors, col.length = 3 := by
  by_cases hnil : data = []
  · subst hnil
    have hk0 : k = 0 := by
      simp at hlen
      omega
    subst hk0
    refine ⟨⟨offset, []⟩, by simp [paletteNew], rfl, by simp, ?_, by simp⟩
    intro i hi
    omega
  · have h2 : (0 : Nat) < 2 := by norm_num
    have hchunklen : ∀ i, i < k → ∃ c0 c1,
        (cut data 2).get? i = some [c0, c1] ∧
        c0 = data.getD (2 * i) 0 ∧ c1 = data.getD (2 * i + 1) 0 := by
      intro i hi
      have hget := cut_get? h2 i k data hlen hi
      have hdl : ((data.drop (i * 2)).take 2).length = 2 := by
        rw [List.length_take, List.length_drop]
        have : 2 ≤ k * 2 - i * 2 := by
          have : (i + 1) * 2 ≤ k * 2 := Nat.mul_le_mul_right 2 hi
          rw [Nat.add_mul] at this
          omega
        omega
      have hpair := list_eq_pair_of_length_two hdl
      refine ⟨_, _, by rw [hget, hpair], ?_, ?_⟩
      · rw [getD_take_drop _ _ _ _ _ (by norm_num)]
        congr 1
        ring
      · rw [getD_take_drop _ _ _ _ _ (by norm_num)]
        congr 1
        ring
    have hk : (cut data 2).length = k := cut_length h2 k data hlen
    have hmem : ∀ c ∈ cut data 2, ∃ c0 c1, c = [c0, c1] := by
      intro c hc
      rcases List.mem_iff_get?.mp hc with ⟨i, hi⟩
      have hik : i < k := by
        rcases List.get?_eq_some.mp hi with ⟨hlt, _⟩
        rw [hk] at hlt
        exact hlt
      rcases hchunklen i hik with ⟨c0, c1, hc01, _, _⟩
      rw [hi] at hc01
      exact ⟨c0, c1, Option.some.inj hc01⟩
    have hfold := foldlM_ok_flatMap
      (fun c : List Nat => [c.getD 0 0 + 256 * c.getD 1 0]) (cut data 2)
      (fun acc c => do
        let v ← unpackH c
        pure (acc ++ [v]))
      (by
        intro acc c hc
        rcases hmem c hc with ⟨c0, c1, rfl⟩
        show (do
          let v ← unpackH [c0, c1]
          pure (acc ++ [v]) : Except PyErr (List Nat)) = _
        rw [unpackH_pair]
        rfl) []
    refine ⟨⟨offset, ((cut data 2).flatMap
      (fun c : List Nat => [c.getD 0 0 + 256 * c.getD 1 0])).map colorOfValue⟩,
      ?_, rfl, ?_, ?_, ?_⟩
    · unfold paletteNew
      rw [if_neg hnil]
      show ((cut data 2).foldlM _ _ >>= _) = _
      rw [hfold]
      rfl
    · rw [List.length_map,
        flatMap_length_const (fun c : List Nat => [c.getD 0 0 + 256 * c.getD 1 0])
          1 (cut data 2) (fun b _ => rfl), hk]
      omega
    · intro i hi
      rcases hchunklen i hi with ⟨c0, c1, hc01, h0, h1⟩
      rw [List.get?_map]
      have := flatMap_get?_const (g := fun c : List Nat => [c.getD 0 0 + 256 * c.getD 1 0])
        (m := 1) (l := cut data 2) (k := 0) (fun b _ => rfl) hc01 (by norm_num)
      rw [Nat.one_mul, Nat.add_zero] at this
      rw [this]
      subst h0 h1
      rfl
    · intro col hcol
      rcases List.mem_map.mp hcol with ⟨c, _, rfl⟩
      rfl

/-- On exactly 32 bytes, `Palette.__init__` succeeds with 16 colors. -/
theorem paletteNew_data32 (data : List Nat) (offset : Nat)
    (h : data.length = 32) :
    ∃ p, paletteNew data offset = .ok p ∧ p.offset = offset ∧
      p.colors.length = 16 ∧
      (∀ i, i < 16 → p.colors.get? i =
        some (colorOfValue (data.getD (2 * i) 0 + 256 * data.getD (2 * i + 1) 0))) ∧
      ∀ col ∈ p.colors, col.length = 3 :=
  paletteNew_even_ok data offset 16 (by omega)

theorem pyGet_some {l : List α} {i : Nat} {a : α} (h : l.get? i = some a) :
    pyGet l i = .ok a := by
  unfold pyGet
  rw [h]

theorem unpackRow_length (r : List Nat) : (unpackRow r).length = 8 := rfl

theorem unpackRow_get? (r : List Nat) {k : Nat} (hk : k < 8) :
    (unpackRow r).get? k =
      some (if k % 2 = 0 then r.getD (k / 2) 0 &&& 0x0F else r.getD (k / 2) 0 >>> 4) := by
  interval_cases k <;> rfl

theorem unpackRow_mem {r : List Nat} {v : Nat} (h : v ∈ unpackRow r) :
    ∃ j, j < 4 ∧ (v = r.getD j 0 &&& 0x0F ∨ v = r.getD j 0 >>> 4) := by
  unfold unpackRow at h
  rcases List.mem_flatMap.mp h with ⟨j, hj, hv⟩
  rw [List.mem_range] at hj
  simp only [List.mem_cons, List.not_mem_nil, or_false] at hv
  exact ⟨j, hj, hv⟩

theorem tileRowBytes_length {data : List Nat} {w h y x i : Nat}
    (hlen : data.length = w * h * BLOCK) (hy : y < h) (hx : x < w) (hi : i < 8) :
    (tileRowBytes data w y x i).length = 4 := by
  unfold tileRowBytes
  rw [List.length_take, List.length_drop]
  have hz : (y * w + x) + 1 ≤ w * h := by
    have h1 : (y + 1) * w ≤ h * w := Nat.mul_le_mul_right w hy
    have h2 : (y + 1) * w = y * w + w := by ring
    have h3 : h * w = w * h := by ring
    omega
  have h4 : ((y * w + x) + 1) * 32 ≤ (w * h) * 32 := Nat.mul_le_mul_right 32 hz
  have hlen' : data.length = (w * h) * 32 := by rw [hlen]; rfl
  have hB : BLOCK = 32 := rfl
  have hR : ROW = 4 := rfl
  rw [hB, hR]
  omega

/-- Access path through the nested `blocks` structure of `Image.__init__`:
block row `y`, block column `x`, sub-row `i` is the 4-byte window
`tileRowBytes data w y x i`. -/
theorem blocks_get {data : List Nat} {w h y x i : Nat}
    (hlen : data.length = w * h * BLOCK) (hw : 0 < w)
    (hy : y < h) (hx : x < w) (hi : i < 8) :
    ∃ By Bx,
      (cut ((cut data BLOCK).map (fun b => cut b ROW)) w).get? y = some By ∧
      By.get? x = some Bx ∧
      Bx.get? i = some (tileRowBytes data w y x i) := by
  have hBpos : (0 : Nat) < BLOCK := by norm_num [BLOCK, ROW]
  have hRpos : (0 : Nat) < ROW := by norm_num [ROW]
  have hB : BLOCK = 32 := rfl
  have hR : ROW = 4 := rfl
  have hlen1 : data.length = (w * h) * BLOCK := by rw [hlen]
  have hlen2 : ((cut data BLOCK).map (fun b => cut b ROW)).length = h * w := by
    rw [List.length_map, cut_length hBpos (w * h) data hlen1]
    ring
  have hz : y * w + x < w * h := by
    have h1 : (y + 1) * w ≤ h * w := Nat.mul_le_mul_right w hy
    have h2 : (y + 1) * w = y * w + w := by ring
    have h3 : h * w = w * h := by ring
    omega
  refine ⟨(((cut data BLOCK).map (fun b => cut b ROW)).drop (y * w)).take w,
    cut ((data.drop ((y * w + x) * BLOCK)).take BLOCK) ROW,
    cut_get? hw y h _ hlen2 hy, ?_, ?_⟩
  · rw [List.get?_take hx, List.get?_drop, List.get?_map,
      cut_get? hBpos (y * w + x) (w * h) data hlen1 hz]
    rfl
  · have hchunklen : ((data.drop ((y * w + x) * BLOCK)).take BLOCK).length = 8 * ROW := by
      rw [List.length_take, List.length_drop]
      have h4 : ((y * w + x) + 1) * 32 ≤ (w * h) * 32 := Nat.mul_le_mul_right 32 hz
      have hlen' : data.length = (w * h) * 32 := by rw [hlen]; rfl
      rw [hB, hR]
      omega
    rw [cut_get? hRpos i 8 _ hchunklen hi]
    congr 1
    unfold tileRowBytes
    rw [List.drop_take, List.take_take, List.drop_drop]
    have hmin : ROW ⊓ (BLOCK - i * ROW) = ROW := by
      rw [hB, hR]
      omega
    rw [hmin]

theorem except_ok_bind {ε α β : Type _} (a : α) (k : α → Except ε β) :
    ((Except.ok a : Except ε α) >>= k) = k a := rfl

/-- One inner iteration of the `bytestring` loop (fixed `y`, `i`, `x`) on
full-length data appends exactly the unpacked row of tile `(y, x)`. -/
theorem bytestring_step {data : List Nat} {w h y x i : Nat}
    (hlen : data.length = w * h * BLOCK) (hw : 0 < w)
    (hy : y < h) (hx : x < w) (hi : i < 8) (acc : List Nat) :
    (do
      let row ← pyGet (cut ((cut data BLOCK).map (fun b => cut b ROW)) w) y
      let col ← pyGet row x
      let r ← pyGet col i
      (List.range 4).foldlM (fun acc j => do
        let b ← pyGet r j
        pure (acc ++ [b &&& 0x0F, b >>> 4])) acc) =
    Except.ok (acc ++ unpackRow (tileRowBytes data w y x i)) := by
  rcases blocks_get hlen hw hy hx hi with ⟨By, Bx, hBy, hBx, hrow⟩
  have hrl : (tileRowBytes data w y x i).length = 4 :=
    tileRowBytes_length hlen hy hx hi
  have hfold := foldlM_ok_flatMap
    (fun j => [(tileRowBytes data w y x i).getD j 0 &&& 0x0F,
               (tileRowBytes data w y x i).getD j 0 >>> 4])
    (List.range 4)
    (fun acc j => do
      let b ← pyGet (tileRowBytes data w y x i) j
      pure (acc ++ [b &&& 0x0F, b >>> 4]))
    (by
      intro acc j hj
      rw [List.mem_range] at hj
      have hok := pyGet_ok (l := tileRowBytes data w y x i) (i := j) (by omega)
      simp only [hok, except_ok_bind]
      rfl) acc
  simp only [pyGet_some hBy, pyGet_some hBx, pyGet_some hrow, except_ok_bind]
  rw [hfold]
  rfl

/-- The block-column loop for a fixed block row `y` and sub-row `i`. -/
theorem bytestring_level_x {data : List Nat} {w h y i : Nat}
    (hlen : data.length = w * h * BLOCK) (hw : 0 < w)
    (hy : y < h) (hi : i < 8) (acc : List Nat) :
    (List.range w).foldlM (fun acc x => do
      let row ← pyGet (cut ((cut data BLOCK).map (fun b => cut b ROW)) w) y
      let col ← pyGet row x
      let r ← pyGet col i
      (List.range 4).foldlM (fun acc j => do
        let b ← pyGet r j
        pure (acc ++ [b &&& 0x0F, b >>> 4])) acc) acc =
    Except.ok (acc ++ (List.range w).flatMap fun x =>
      unpackRow (tileRowBytes data w y x i)) := by
  apply foldlM_ok_flatMap
  intro acc x hx
  rw [List.mem_range] at hx
  exact bytestring_step hlen hw hy hx hi acc

/-- The sub-row loop for a fixed block row `y`. -/
theorem bytestring_level_i {data : List Nat} {w h y : Nat}
    (hlen : data.length = w * h * BLOCK) (hw : 0 < w)
    (hy : y < h) (acc : List Nat) :
    (List.range 8).foldlM (fun acc i =>
      (List.range w).foldlM (fun acc x => do
        let row ← pyGet (cut ((cut data BLOCK).map (fun b => cut b ROW)) w) y
        let col ← pyGet row x
        let r ← pyGet col i
        (List.range 4).foldlM (fun acc j => do
          let b ← pyGet r j
          pure (acc ++ [b &&& 0x0F, b >>> 4])) acc) acc) acc =
    Except.ok (acc ++ (List.range 8).flatMap fun i =>
      (List.range w).flatMap fun x => unpackRow (tileRowBytes data w y x i)) := by
  apply foldlM_ok_flatMap
  intro acc i hi
  rw [List.mem_range] at hi
  exact bytestring_level_x hlen hw hy hi acc

/-- The `bytestring` loop succeeds on full-length data and computes
`bytestringPure`. -/
theorem bytestringE_ok {data : List Nat} {w h : Nat}
    (hlen : data.length = w * h * BLOCK) (hw : 0 < w) :
    bytestringE (cut ((cut data BLOCK).map (fun b => cut b ROW)) w) (w, h) =
      .ok (bytestringPure data w h) := by
  unfold bytestringE bytestringPure
  have h84 : BLOCK / ROW = 8 := rfl
  rw [h84]
  have hfold := foldlM_ok_flatMap
    (fun y => (List.range 8).flatMap fun i =>
      (List.range w).flatMap fun x => unpackRow (tileRowBytes data w y x i))
    (List.range h)
    (fun acc y =>
      (List.range 8).foldlM (fun acc i =>
        (List.range w).foldlM (fun acc x => do
          let row ← pyGet (cut ((cut data BLOCK).map (fun b => cut b ROW)) w) y
          let col ← pyGet row x
          let r ← pyGet col i
          (List.range 4).foldlM (fun acc j => do
            let b ← pyGet r j
            pure (acc ++ [b &&& 0x0F, b >>> 4])) acc) acc) acc)
    (by
      intro acc y hy
      rw [List.mem_range] at hy
      exact bytestring_level_i hlen hw hy acc) []
  rw [hfold, List.nil_append]

theorem bytestringPure_len_x (data : List Nat) (w y i : Nat) :
    ((List.range w).flatMap fun x => unpackRow (tileRowBytes data w y x i)).length
      = w * 8 := by
  rw [flatMap_length_const (fun x => unpackRow (tileRowBytes data w y x i)) 8 _
    (fun a _ => unpackRow_length _), List.length_range]

theorem bytestringPure_len_i (data : List Nat) (w y : Nat) :
    ((List.range 8).flatMap fun i =>
      (List.range w).flatMap fun x => unpackRow (tileRowBytes data w y x i)).length
      = 8 * (w * 8) := by
  rw [flatMap_length_const _ (w * 8) _
    (fun a _ => bytestringPure_len_x data w y a), List.length_range]

theorem bytestringPure_length (data : List Nat) (w h : Nat) :
    (bytestringPure data w h).length = h * (8 * (w * 8)) := by
  unfold bytestringPure
  rw [flatMap_length_const _ (8 * (w * 8)) _
    (fun a _ => bytestringPure_len_i data w a), List.length_range]

theorem bytestringPure_get_aux (data : List Nat) (w h y i x k : Nat)
    (hy : y < h) (hi : i < 8) (hx : x < w) (hk : k < 8) :
    (bytestringPure data w h).get? (8 * (w * 8) * y + (w * 8 * i + (8 * x + k))) =
      (unpackRow (tileRowBytes data w y x i)).get? k := by
  have hxk : 8 * x + k < w * 8 := by
    have h1 : 8 * (x + 1) ≤ 8 * w := Nat.mul_le_mul_left 8 hx
    have h2 : w * 8 = 8 * w := by ring
    omega
  have hik : w * 8 * i + (8 * x + k) < 8 * (w * 8) := by
    have h1 : w * 8 * i ≤ w * 8 * 7 := Nat.mul_le_mul_left (w * 8) (by omega)
    have h2 : w * 8 * 7 = 56 * w := by ring
    have h3 : w * 8 = 8 * w := by ring
    have h4 : 8 * (w * 8) = 64 * w := by ring
    omega
  unfold bytestringPure
  rw [flatMap_get?_const (m := 8 * (w * 8))
    (fun a _ => bytestringPure_len_i data w a) (List.get?_range hy) hik]
  rw [flatMap_get?_const (m := w * 8)
    (fun a _ => bytestringPure_len_x data w y a) (List.get?_range hi) hxk]
  rw [flatMap_get?_const (m := 8)
    (fun a _ => unpackRow_length _) (List.get?_range hx) hk]

/-- Positional characterisation of the pixel-index sequence: entry
`s * (8*w) + c` (scanline `s`, column `c`) is `pixelIndexAt data w s c`. -/
theorem bytestringPure_get? (data : List Nat) (w h s c : Nat)
    (hs : s < 8 * h) (hc : c < 8 * w) :
    (bytestringPure data w h).get? (s * (8 * w) + c) =
      some (pixelIndexAt data w s c) := by
  obtain ⟨y, i, rfl, hi8⟩ : ∃ y i, s = 8 * y + i ∧ i < 8 :=
    ⟨s / 8, s % 8, (Nat.div_add_mod s 8).symm, Nat.mod_lt _ (by norm_num)⟩
  obtain ⟨x, k, rfl, hk8⟩ : ∃ x k, c = 8 * x + k ∧ k < 8 :=
    ⟨c / 8, c % 8, (Nat.div_add_mod c 8).symm, Nat.mod_lt _ (by norm_num)⟩
  have hy : y < h := by omega
  have hx : x < w := by omega
  have hidx : (8 * y + i) * (8 * w) + (8 * x + k) =
      8 * (w * 8) * y + (w * 8 * i + (8 * x + k)) := by ring
  rw [hidx, bytestringPure_get_aux data w h y i x k hy hi8 hx hk8,
    unpackRow_get? _ hk8]
  congr 1
  have hR : ROW = 4 := rfl
  simp only [pixelIndexAt]
  unfold tileRowBytes
  rw [getD_take_drop _ _ _ _ _ (show k / 2 < ROW by omega)]
  have e1 : (8 * y + i) / 8 = y := by omega
  have e2 : (8 * y + i) % 8 = i := by omega
  have e3 : (8 * x + k) / 8 = x := by omega
  have e4 : (8 * x + k) % 8 = k := by omega
  have e5 : (8 * x + k) % 2 = k % 2 := by omega
  rw [e1, e2, e3, e4, e5]

/-- Every pixel index produced from byte data is a 4-bit value. -/
theorem bytestringPure_mem_lt {data : List Nat} {w h : Nat}
    (hbytes : ∀ b ∈ data, b < 256) :
    ∀ v ∈ bytestringPure data w h, v < 16 := by
  intro v hv
  unfold bytestringPure at hv
  rcases List.mem_flatMap.mp hv with ⟨y, _, hv⟩
  rcases List.mem_flatMap.mp hv with ⟨i, _, hv⟩
  rcases List.mem_flatMap.mp hv with ⟨x, _, hv⟩
  rcases unpackRow_mem hv with ⟨j, _, hcase⟩
  have hb : (tileRowBytes data w y x i).getD j 0 < 256 := by
    rcases Nat.lt_or_ge j (tileRowBytes data w y x i).length with hlt | hge
    · refine hbytes _ ?_
      have hmem : (tileRowBytes data w y x i).getD j 0 ∈ tileRowBytes data w y x i := by
        rw [List.getD_eq_get?, List.get?_eq_get hlt]
        exact List.get_mem _ _ _
      unfold tileRowBytes at hmem
      exact List.drop_subset _ _ (List.take_subset _ _ hmem)
    · rw [List.getD_eq_get?, List.get?_eq_none.mpr hge]
      norm_num
  rcases hcase with rfl | rfl
  · exact low_nibble_lt _
  · exact high_nibble_lt hb

/-- The palette-application loop succeeds when every index is in range,
concatenating the referenced color triples. -/
theorem applyPaletteE_ok (palette : Palette) (bs : List Nat)
    (hin : ∀ v ∈ bs, v < palette.colors.length) :
    applyPaletteE palette bs =
      .ok (bs.flatMap fun i => palette.colors.getD i []) := by
  unfold applyPaletteE
  have hfold := foldlM_ok_flatMap (fun i => palette.colors.getD i []) bs
    (fun acc i => do
      let c ← pyGet palette.colors i
      pure (acc ++ c))
    (by
      intro acc i hi
      have hok := pyGet_ok (l := palette.colors) (i := i) (hin i hi)
      simp only [hok, except_ok_bind]
      rfl) []
  rw [hfold, List.nil_append]

/-- On full-length data and a fully populated palette, the decoded path of
`Image.__init__` computes its `result` buffer as the palette image of the
pure pixel-index sequence. -/
theorem imageResult_ok {data : List Nat} {w h : Nat} {palette : Palette}
    (hlen : data.length = w * h * BLOCK) (hw : 0 < w)
    (hbytes : ∀ b ∈ data, b < 256) (hpal : palette.colors.length = 16) :
    imageResult data (w, h) palette =
      .ok ((bytestringPure data w h).flatMap fun i => palette.colors.getD i []) := by
  show (do
    let bytestring ← bytestringE (cut ((cut data BLOCK).map (fun b => cut b ROW)) w) (w, h)
    applyPaletteE palette bytestring) = _
  rw [bytestringE_ok hlen hw, except_ok_bind]
  apply applyPaletteE_ok
  intro v hv
  rw [hpal]
  exact bytestringPure_mem_lt hbytes v hv

/-- On full-length non-empty data `Image.__init__` succeeds and stores the
2x-scaled pixbuf of the decoded `8*w x 8*h` buffer. -/
theorem imageNew_decoded_ok {data : List Nat} {w h : Nat} {palette : Palette}
    (hlen : data.length = w * h * BLOCK) (hw : 0 < w) (hh : 0 < h)
    (hbytes : ∀ b ∈ data, b < 256) (hpal : palette.colors.length = 16) :
    imageNew data (w, h) palette =
      .ok (scale2x ⟨8 * w, 8 * h,
        (bytestringPure data w h).flatMap fun i => palette.colors.getD i []⟩) := by
  have hpos : 0 < w * h * BLOCK :=
    Nat.mul_pos (Nat.mul_pos hw hh) (by norm_num [BLOCK, ROW])
  have hne : data ≠ [] := by
    intro hcontra
    rw [hcontra] at hlen
    have hz : ([] : List Nat).length = 0 := rfl
    omega
  unfold imageNew
  rw [if_neg hne]
  show (do
    let result ← imageResult data (w, h) palette
    Except.ok (scale2x ⟨8 * (w, h).1, 8 * (w, h).2, result⟩)) = _
  rw [imageResult_ok hlen hw hbytes hpal, except_ok_bind]

theorem getD_mem_of_lt {α : Type _} {l : List α} {j : Nat} (h : j < l.length)
    (d : α) : l.getD j d ∈ l := by
  rw [List.getD_eq_get?, List.get?_eq_get h]
  exact List.get_mem _ _ _

/-- C1: for every raw tile buffer of length exactly `w * h * 32` and every
16-color palette, `ImageAssembler.assemble` (the decoded path of
`Image.__init__`, whose unscaled buffer is `imageResult` and whose stored
pixbuf is its 2x upscaling) produces the pixel buffer of the nested
tile-row / sub-row / tile-column loop: the output is `8*w x 8*h` pixels in
raster order, and the RGB triple of scanline `s`, column `c` is the
palette color selected by `pixelIndexAt`, which reads the byte of tile
`(s/8, c/8)` (tiles row-major, 32 bytes each), packed row `s%8`, byte
`(c%8)/2`, low nibble for even columns and high nibble for odd ones. -/
theorem assemble_raster_order (data : List Nat) (w h : Nat) (palette : Palette)
    (hlen : data.length = w * h * BLOCK) (hw : 0 < w) (hh : 0 < h)
    (hbytes : ∀ b ∈ data, b < 256)
    (hpal : palette.colors.length = 16)
    (htrip : ∀ col ∈ palette.colors, col.length = 3) :
    ∃ result, imageResult data (w, h) palette = .ok result ∧
      imageNew data (w, h) palette = .ok (scale2x ⟨8 * w, 8 * h, result⟩) ∧
      result.length = 8 * h * (8 * w) * 3 ∧
      ∀ s c, s < 8 * h → c < 8 * w →
        (result.drop (3 * (s * (8 * w) + c))).take 3 =
          palette.colors.getD (pixelIndexAt data w s c) [] := by
  have hpiece : ∀ v ∈ bytestringPure data w h,
      ((fun i => palette.colors.getD i []) v).length = 3 := by
    intro v hv
    have hv16 : v < 16 := bytestringPure_mem_lt hbytes v hv
    exact htrip _ (getD_mem_of_lt (by omega) [])
  refine ⟨(bytestringPure data w h).flatMap fun i => palette.colors.getD i [],
    imageResult_ok hlen hw hbytes hpal,
    imageNew_decoded_ok hlen hw hh hbytes hpal, ?_, ?_⟩
  · rw [flatMap_length_const _ 3 _ hpiece, bytestringPure_length]
    ring
  · intro s c hs hc
    exact flatMap_drop_take _ 3 _ _ _ hpiece (bytestringPure_get? data w h s c hs hc)

set_option maxRecDepth 8192 in
/-- Witness for C1 at `size = (2, 1)`: first tile all zero, second tile all
`0x11`, a palette whose color `i` is `[i, i, i]`; the result's pixel `(0, 8)`
(first scanline, column 8) is colored from the second tile and pixel
`(0, 0)` from the first. -/
theorem assemble_raster_order_witness :
    ((List.replicate 32 0 ++ List.replicate 32 17 : List Nat).length
        = 2 * 1 * BLOCK) ∧
    (∃ result,
      imageResult (List.replicate 32 0 ++ List.replicate 32 17) (2, 1)
          ⟨0, (List.range 16).map fun i => [i, i, i]⟩ = .ok result ∧
      imageNew (List.replicate 32 0 ++ List.replicate 32 17) (2, 1)
          ⟨0, (List.range 16).map fun i => [i, i, i]⟩ =
        .ok (scale2x ⟨8 * 2, 8 * 1, result⟩) ∧
      result.length = 8 * 1 * (8 * 2) * 3 ∧
      ∀ s c, s < 8 * 1 → c < 8 * 2 →
        (result.drop (3 * (s * (8 * 2) + c))).take 3 =
          (⟨0, (List.range 16).map fun i => [i, i, i]⟩ : Palette).colors.getD
            (pixelIndexAt (List.replicate 32 0 ++ List.replicate 32 17) 2 s c) []) ∧
    ((imageResult (List.replicate 32 0 ++ List.replicate 32 17) (2, 1)
        ⟨0, (List.range 16).map fun i => [i, i, i]⟩).map
      (fun r => ((r.drop (3 * 8)).take 3, r.take 3)) = .ok ([1, 1, 1], [0, 0, 0])) :=
  ⟨rfl,
    assemble_raster_order _ 2 1 _ rfl (by norm_num) (by norm_num) (by decide)
      (by decide) (by decide),
    by decide⟩

/-- C2: on every input of exactly 32 bytes, `PaletteDecoder.decode`
(`Palette.__init__`) returns exactly 16 colors; color `i` decodes the
little-endian 16-bit value `c` of bytes `2i, 2i+1` with layout
`0BBBBBGGGGGRRRRR` into `[(c & 0x1F)*8, ((c & 0x3E0) >> 5)*8,
((c & 0x7C00) >> 10)*8]` (`colorOfValue`); hence every channel is a
multiple of 8, at most 248 and never 255. -/
theorem palette_decode_correct (data : List Nat) (offset : Nat)
    (hlen : data.length = 32) :
    ∃ p, paletteNew data offset = .ok p ∧ p.colors.length = 16 ∧
      (∀ i, i < 16 → p.colors.get? i =
        some (colorOfValue (data.getD (2 * i) 0 + 256 * data.getD (2 * i + 1) 0))) ∧
      ∀ col ∈ p.colors, ∀ ch ∈ col, ch % 8 = 0 ∧ ch ≤ 248 ∧ ch ≠ 255 := by
  rcases paletteNew_data32 data offset hlen with ⟨p, hok, _, hlen16, hform, _⟩
  refine ⟨p, hok, hlen16, hform, ?_⟩
  intro col hcol ch hch
  rcases List.mem_iff_get?.mp hcol with ⟨i, hi⟩
  have hilt : i < 16 := by
    rcases List.get?_eq_some.mp hi with ⟨hlt, _⟩
    omega
  have hcoleq : col = colorOfValue
      (data.getD (2 * i) 0 + 256 * data.getD (2 * i + 1) 0) := by
    have := hform i hilt
    rw [hi] at this
    exact Option.some.inj this
  subst hcoleq
  rcases colorOfValue_bounds hch with ⟨h8, h248⟩
  exact ⟨h8, h248, by omega⟩

/-- Witness for C2: bytes `00 00` decode to `(0, 0, 0)` and bytes `FF 7F`
(value `0x7FFF`) to `(248, 248, 248)`. -/
theorem palette_decode_correct_witness :
    (([0x00, 0x00, 0xFF, 0x7F] ++ List.replicate 28 0 : List Nat).length = 32) ∧
    (∃ p, paletteNew ([0x00, 0x00, 0xFF, 0x7F] ++ List.replicate 28 0) 0 = .ok p ∧
      p.colors.length = 16 ∧
      (∀ i, i < 16 → p.colors.get? i =
        some (colorOfValue
          (([0x00, 0x00, 0xFF, 0x7F] ++ List.replicate 28 0 : List Nat).getD (2 * i) 0 +
            256 * ([0x00, 0x00, 0xFF, 0x7F] ++ List.replicate 28 0 : List Nat).getD (2 * i + 1) 0))) ∧
      ∀ col ∈ p.colors, ∀ ch ∈ col, ch % 8 = 0 ∧ ch ≤ 248 ∧ ch ≠ 255) ∧
    ((paletteNew ([0x00, 0x00, 0xFF, 0x7F] ++ List.replicate 28 0) 0).map
      (fun p => p.colors.take 2) = .ok [[0, 0, 0], [248, 248, 248]]) :=
  ⟨rfl, palette_decode_correct _ 0 rfl, by decide⟩

/-- C3: on every 32-byte tile, `TileUnpacker.unpack` (`tileUnpack`, the
sub-row loop of `Image.__init__` specialised to one tile) yields 8 rows;
row `i` decodes bytes `4i .. 4i+3`, each byte `v` contributing `v & 0x0F`
immediately followed by `v >> 4`; and the `bytestring` loop of
`Image.__init__` run on this single tile produces exactly the
concatenation of these rows. -/
theorem tile_unpack_rows (tile : List Nat) (hlen : tile.length = 32) :
    (tileUnpack tile).length = 8 ∧
    (∀ i, i < 8 → (tileUnpack tile).get? i = some
      [tile.getD (4 * i) 0 &&& 0x0F, tile.getD (4 * i) 0 >>> 4,
       tile.getD (4 * i + 1) 0 &&& 0x0F, tile.getD (4 * i + 1) 0 >>> 4,
       tile.getD (4 * i + 2) 0 &&& 0x0F, tile.getD (4 * i + 2) 0 >>> 4,
       tile.getD (4 * i + 3) 0 &&& 0x0F, tile.getD (4 * i + 3) 0 >>> 4]) ∧
    bytestringE (cut ((cut tile BLOCK).map fun b => cut b ROW) 1) (1, 1) =
      .ok (tileUnpack tile).flatten := by
  have hRpos : (0 : Nat) < ROW := by norm_num [ROW]
  have hR : ROW = 4 := rfl
  have hlen84 : tile.length = 8 * ROW := by rw [hlen]; rfl
  refine ⟨?_, ?_, ?_⟩
  · unfold tileUnpack
    rw [List.length_map, cut_length hRpos 8 tile hlen84]
  · intro i hi
    unfold tileUnpack
    rw [List.get?_map, cut_get? hRpos i 8 tile hlen84 hi]
    show some (unpackRow ((tile.drop (i * ROW)).take ROW)) = _
    congr 1
    have hg0 : ((tile.drop (i * ROW)).take ROW).getD 0 0 = tile.getD (4 * i) 0 := by
      rw [getD_take_drop _ _ _ _ _ (show 0 < ROW by rw [hR]; omega)]
      rw [show i * ROW + 0 = 4 * i by rw [hR]; omega]
    have hg1 : ((tile.drop (i * ROW)).take ROW).getD 1 0 = tile.getD (4 * i + 1) 0 := by
      rw [getD_take_drop _ _ _ _ _ (show 1 < ROW by rw [hR]; omega)]
      rw [show i * ROW + 1 = 4 * i + 1 by rw [hR]; omega]
    have hg2 : ((tile.drop (i * ROW)).take ROW).getD 2 0 = tile.getD (4 * i + 2) 0 := by
      rw [getD_take_drop _ _ _ _ _ (show 2 < ROW by rw [hR]; omega)]
      rw [show i * ROW + 2 = 4 * i + 2 by rw [hR]; omega]
    have hg3 : ((tile.drop (i * ROW)).take ROW).getD 3 0 = tile.getD (4 * i + 3) 0 := by
      rw [getD_take_drop _ _ _ _ _ (show 3 < ROW by rw [hR]; omega)]
      rw [show i * ROW + 3 = 4 * i + 3 by rw [hR]; omega]
    show [((tile.drop (i * ROW)).take ROW).getD 0 0 &&& 0x0F,
      ((tile.drop (i * ROW)).take ROW).getD 0 0 >>> 4,
      ((tile.drop (i * ROW)).take ROW).getD 1 0 &&& 0x0F,
      ((tile.drop (i * ROW)).take ROW).getD 1 0 >>> 4,
      ((tile.drop (i * ROW)).take ROW).getD 2 0 &&& 0x0F,
      ((tile.drop (i * ROW)).take ROW).getD 2 0 >>> 4,
      ((tile.drop (i * ROW)).take ROW).getD 3 0 &&& 0x0F,
      ((tile.drop (i * ROW)).take ROW).getD 3 0 >>> 4] = _
    rw [hg0, hg1, hg2, hg3]
  · rw [bytestringE_ok (show tile.length = 1 * 1 * BLOCK by rw [hlen]; rfl)
      (by norm_num)]
    congr 1
    have hcut : cut tile ROW = (List.range 8).map fun i => tileRowBytes tile 1 0 0 i := by
      apply List.ext
      intro n
      rcases Nat.lt_or_ge n 8 with hn | hn
      · rw [cut_get? hRpos n 8 tile hlen84 hn, List.get?_map, List.get?_range hn]
        show some ((tile.drop (n * ROW)).take ROW) = some (tileRowBytes tile 1 0 0 n)
        unfold tileRowBytes
        congr 3
        have hz : (0 * 1 + 0) * BLOCK = 0 := rfl
        omega
      · rw [List.get?_eq_none.mpr, List.get?_eq_none.mpr]
        · rw [List.length_map, List.length_range]
          exact hn
        · rw [cut_length hRpos 8 tile hlen84]
          exact hn
    show bytestringPure tile 1 1 = ((cut tile ROW).map unpackRow).flatten
    rw [hcut]
    unfold bytestringPure
    show (List.range 1).flatMap (fun y => (List.range 8).flatMap fun i =>
      (List.range 1).flatMap fun x => unpackRow (tileRowBytes tile 1 y x i)) = _
    have hr1 : List.range 1 = [0] := rfl
    rw [hr1]
    simp only [List.flatMap_cons, List.flatMap_nil, List.append_nil]
    rfl

theorem flatten_replicate_replicate {α : Type _} (n m : Nat) (a : α) :
    (List.replicate n (List.replicate m a)).flatten = List.replicate (n * m) a := by
  induction n with
  | zero => simp
  | succ n ih =>
    rw [List.replicate_succ, List.flatten_cons, ih, ← List.replicate_add]
    congr 1
    ring

theorem flatMap_congr_const {α β : Type _} (l : List α) (g : α → List β)
    (c : List β) (hg : ∀ a ∈ l, g a = c) :
    l.flatMap g = (List.replicate l.length c).flatten := by
  induction l with
  | nil => rfl
  | cons a as ih =>
    rw [List.flatMap_cons, hg a (by simp), List.length_cons, List.replicate_succ,
      List.flatten_cons, ih (fun b hb => hg b (by simp [hb]))]

/-- Nearest-neighbour 2x upscaling of a uniform buffer is the uniform
buffer at the doubled dimensions. -/
theorem scale2x_uniform (W H : Nat) :
    scale2x ⟨W, H, List.replicate (H * W * 3) 170⟩ =
      ⟨2 * W, 2 * H, List.replicate (2 * H * (2 * W) * 3) 170⟩ := by
  unfold scale2x
  congr 1
  have hpc : ∀ r c, r < 2 * H → c < 2 * W →
      pixelChannels ⟨W, H, List.replicate (H * W * 3) 170⟩ (r / 2) (c / 2) =
        [170, 170, 170] := by
    intro r c hr hc
    unfold pixelChannels
    show ((List.replicate (H * W * 3) 170).drop (3 * (r / 2 * W + c / 2))).take 3 = _
    rw [List.drop_replicate, List.take_replicate]
    have h1 : r / 2 < H := by omega
    have h2 : c / 2 < W := by omega
    have h4 : r / 2 * W + W ≤ H * W := by
      have h5 : (r / 2 + 1) * W ≤ H * W := Nat.mul_le_mul_right W (by omega)
      have h6 : (r / 2 + 1) * W = r / 2 * W + W := by ring
      omega
    have hmin : (3 : Nat) ⊓ (H * W * 3 - 3 * (r / 2 * W + c / 2)) = 3 := by omega
    rw [hmin]
    rfl
  have hinner : ∀ r, r < 2 * H →
      ((List.range (2 * W)).flatMap fun c =>
        pixelChannels ⟨W, H, List.replicate (H * W * 3) 170⟩ (r / 2) (c / 2)) =
      List.replicate (2 * W * 3) 170 := by
    intro r hr
    rw [flatMap_congr_const _ _ [170, 170, 170]
      (fun c hc => hpc r c hr (List.mem_range.mp hc)), List.length_range]
    exact flatten_replicate_replicate (2 * W) 3 170
  rw [flatMap_congr_const _ _ (List.replicate (2 * W * 3) 170)
    (fun r hr => hinner r (List.mem_range.mp hr)), List.length_range,
    flatten_replicate_replicate]
  congr 1
  ring

/-- The code's dummy pixbuf is exactly the 2x display upscaling of the
unscaled `8*w x 8*h` sentinel buffer — the decoder-contract placeholder. -/
theorem dummyPixbuf_eq_scale2x (size : Nat × Nat) :
    dummyPixbuf size = scale2x ⟨8 * size.1, 8 * size.2, placeholderPixels size⟩ := by
  have hpp : placeholderPixels size =
      List.replicate (8 * size.2 * (8 * size.1) * 3) 170 := rfl
  rw [hpp, scale2x_uniform (8 * size.1) (8 * size.2)]
  unfold dummyPixbuf
  congr 1
  · ring
  · ring
  · congr 1
    ring

/-- C5: for every tile-grid size with both components at least 1,
`assemblePlaceholder` yields an image of the decoder-contract dimensions
`8*w x 8*h` with every pixel the sentinel `(170, 170, 170)`, and the
pixbuf the code actually stores for the empty-data path (`dummyPixbuf`,
built directly at the doubled display size) is exactly this placeholder
buffer after the same 2x display upscaling that the decoded path
receives — so the placeholder has the same final dimensions as the
decoded case. -/
theorem placeholder_image_spec (w h : Nat) (hw : 0 < w) (hh : 0 < h)
    (palette : Palette) :
    imageNew [] (w, h) palette = .ok (dummyPixbuf (w, h)) ∧
    dummyPixbuf (w, h) = scale2x ⟨8 * w, 8 * h, placeholderPixels (w, h)⟩ ∧
    placeholderPixels (w, h) = List.replicate (8 * h * (8 * w) * 3) 170 ∧
    ∀ r c, r < 8 * h → c < 8 * w →
      pixelChannels ⟨8 * w, 8 * h, placeholderPixels (w, h)⟩ r c =
        [170, 170, 170] := by
  refine ⟨rfl, dummyPixbuf_eq_scale2x (w, h), rfl, ?_⟩
  intro r c hr hc
  unfold pixelChannels
  show ((placeholderPixels (w, h)).drop (3 * (r * (8 * w) + c))).take 3 = _
  have hpp : placeholderPixels (w, h) =
      List.replicate (8 * h * (8 * w) * 3) 170 := rfl
  rw [hpp, List.drop_replicate, List.take_replicate]
  have h4 : r * (8 * w) + 8 * w ≤ 8 * h * (8 * w) := by
    have h5 : (r + 1) * (8 * w) ≤ 8 * h * (8 * w) :=
      Nat.mul_le_mul_right (8 * w) (by omega)
    have h6 : (r + 1) * (8 * w) = r * (8 * w) + 8 * w := by ring
    omega
  have hmin : (3 : Nat) ⊓ (8 * h * (8 * w) * 3 - 3 * (r * (8 * w) + c)) = 3 := by
    omega
  rw [hmin]
  rfl

set_option maxRecDepth 8192 in
/-- Witness for C5 at `size = (2, 3)`: the decoder-contract placeholder is
`16 x 24` pixels (`16 * 24 * 3` buffer bytes), every pixel `(170, 170, 170)`,
and the stored pixbuf is its 2x upscaling. -/
theorem placeholder_image_spec_witness :
    (0 < 2 ∧ 0 < 3) ∧
    (imageNew [] (2, 3) ⟨0, []⟩ = .ok (dummyPixbuf (2, 3)) ∧
      dummyPixbuf (2, 3) = scale2x ⟨8 * 2, 8 * 3, placeholderPixels (2, 3)⟩ ∧
      placeholderPixels (2, 3) = List.replicate (8 * 3 * (8 * 2) * 3) 170 ∧
      ∀ r c, r < 8 * 3 → c < 8 * 2 →
        pixelChannels ⟨8 * 2, 8 * 3, placeholderPixels (2, 3)⟩ r c =
          [170, 170, 170]) ∧
    (8 * 2 = 16 ∧ 8 * 3 = 24 ∧ (placeholderPixels (2, 3)).length = 16 * 24 * 3) :=
  ⟨⟨by norm_num, by norm_num⟩,
    placeholder_image_spec 2 3 (by norm_num) (by norm_num) ⟨0, []⟩,
    by decide⟩

theorem spriteNew_ok {data : List Nat} {os : Nat} {size : Nat × Nat}
    {palette : Palette} {img : ImageData}
    (h : imageNew data size palette = .ok img) :
    spriteNew data os size palette =
      .ok ⟨"", os, size, size.1 * size.2 * BLOCK, palette, img⟩ := by
  unfold spriteNew
  rw [h, except_ok_bind]

/-- The sprite loop of `ROM.search` when every read from the current
position returns the full requested `w * h * BLOCK` bytes: it appends one
decoded sprite and one full-read trace event per requested offset. -/
theorem searchLoop_full {content : List Nat} {w h : Nat} {palette : Palette}
    (hw : 0 < w) (hh : 0 < h)
    (hbytes : ∀ b ∈ content, b < 256)
    (hpal : palette.colors.length = 16) :
    ∀ (osl : List Nat) (pos : Nat) (sprites : List Sprite) (trace : List ReadEvent),
      pos + osl.length * (w * h * BLOCK) ≤ content.length →
      ∃ news newt,
        searchLoop content (w, h) palette (w * h * BLOCK) osl pos sprites trace =
          .ok (sprites ++ news, trace ++ newt) ∧
        news.length = osl.length ∧
        newt = (List.range osl.length).map
          (fun i => ⟨pos + i * (w * h * BLOCK), w * h * BLOCK, w * h * BLOCK⟩) ∧
        ∀ k os_, osl.get? k = some os_ →
          ∃ s, news.get? k = some s ∧ s.offset = os_ ∧ s.palette = palette ∧
            s.size = (w, h) ∧ s.name = "" := by
  intro osl
  induction osl with
  | nil =>
    intro pos sprites trace _
    refine ⟨[], [], by simp [searchLoop], rfl, rfl, ?_⟩
    intro k os_ hk
    simp at hk
  | cons os rest ih =>
    intro pos sprites trace hle
    have hLpos : 0 < w * h * BLOCK :=
      Nat.mul_pos (Nat.mul_pos hw hh) (by norm_num [BLOCK, ROW])
    have hlen1 : (os :: rest).length * (w * h * BLOCK) =
        rest.length * (w * h * BLOCK) + w * h * BLOCK := by
      rw [List.length_cons]
      ring
    have hfull : pos + w * h * BLOCK ≤ content.length := by omega
    have hdata : (fread content pos (w * h * BLOCK)).length = w * h * BLOCK :=
      fread_full hfull
    have hdbytes : ∀ b ∈ fread content pos (w * h * BLOCK), b < 256 := by
      intro b hb
      exact hbytes b (List.drop_subset _ _ (List.take_subset _ _ hb))
    have himg := imageNew_decoded_ok hdata hw hh hdbytes hpal
    rcases ih (pos + w * h * BLOCK) (sprites ++ [⟨"", os, (w, h),
        (w, h).1 * (w, h).2 * BLOCK, palette,
        scale2x ⟨8 * w, 8 * h, (bytestringPure (fread content pos (w * h * BLOCK)) w h).flatMap
          fun i => palette.colors.getD i []⟩⟩])
        (trace ++ [⟨pos, w * h * BLOCK, w * h * BLOCK⟩])
        (by omega) with ⟨news, newt, hloop, hnl, hnt, hsp⟩
    refine ⟨⟨"", os, (w, h), (w, h).1 * (w, h).2 * BLOCK, palette,
        scale2x ⟨8 * w, 8 * h, (bytestringPure (fread content pos (w * h * BLOCK)) w h).flatMap
          fun i => palette.colors.getD i []⟩⟩ :: news,
      ⟨pos, w * h * BLOCK, w * h * BLOCK⟩ :: newt, ?_, ?_, ?_, ?_⟩
    · show (do
        let sprite ← spriteNew (fread content pos (w * h * BLOCK)) os (w, h) palette
        searchLoop content (w, h) palette (w * h * BLOCK) rest
          (pos + (fread content pos (w * h * BLOCK)).length)
          (sprites ++ [sprite])
          (trace ++ [(⟨pos, w * h * BLOCK,
            (fread content pos (w * h * BLOCK)).length⟩ : ReadEvent)])) = _
      rw [spriteNew_ok himg, except_ok_bind, hdata, hloop]
      rw [List.append_assoc, List.append_assoc, List.singleton_append,
        List.singleton_append]
    · rw [List.length_cons, hnl, List.length_cons]
    · rw [hnt, List.length_cons, List.range_succ_eq_map, List.map_cons,
        List.map_map]
      congr 1
      · congr 1
        omega
      · apply List.map_congr_left
        intro i _
        show (⟨pos + w * h * BLOCK + i * (w * h * BLOCK), w * h * BLOCK,
          w * h * BLOCK⟩ : ReadEvent) = _
        have harith : pos + (Nat.succ i) * (w * h * BLOCK) =
            pos + w * h * BLOCK + i * (w * h * BLOCK) := by
          rw [Nat.succ_mul]
          ring
        rw [Function.comp_apply, harith]
    · intro k os_ hk
      cases k with
      | zero =>
        simp only [List.get?_cons_zero, Option.some.injEq] at hk
        subst hk
        exact ⟨_, rfl, rfl, rfl, rfl, rfl⟩
      | succ k =>
        rw [List.get?_cons_succ] at hk ⊢
        exact hsp k os_ hk

/-- The sprite loop of `ROM.search` when every read returns either the
full `w * h * BLOCK` bytes or none: it never fails, appends exactly one
sprite and one trace event per requested offset, and a zero-byte read
yields a sprite whose image is the dummy pixbuf. -/
theorem searchLoop_allOrZero {content : List Nat} {w h : Nat} {palette : Palette}
    (hw : 0 < w) (hh : 0 < h)
    (hbytes : ∀ b ∈ content, b < 256)
    (hpal : palette.colors.length = 16) :
    ∀ (osl : List Nat) (pos : Nat) (sprites : List Sprite) (trace : List ReadEvent),
      allOrZero content (w * h * BLOCK) pos osl.length = true →
      ∃ news newt,
        searchLoop content (w, h) palette (w * h * BLOCK) osl pos sprites trace =
          .ok (sprites ++ news, trace ++ newt) ∧
        news.length = osl.length ∧ newt.length = osl.length ∧
        ∀ k os_, osl.get? k = some os_ →
          ∃ s e, news.get? k = some s ∧ newt.get? k = some e ∧
            s.offset = os_ ∧ e.requested = w * h * BLOCK ∧
            (e.returned = 0 → s.image = dummyPixbuf (w, h)) := by
  intro osl
  induction osl with
  | nil =>
    intro pos sprites trace _
    refine ⟨[], [], by simp [searchLoop], rfl, rfl, ?_⟩
    intro k os_ hk
    simp at hk
  | cons os rest ih =>
    intro pos sprites trace haz
    have hLpos : 0 < w * h * BLOCK :=
      Nat.mul_pos (Nat.mul_pos hw hh) (by norm_num [BLOCK, ROW])
    rw [List.length_cons, allOrZero, Bool.and_eq_true, Bool.or_eq_true,
      beq_iff_eq, beq_iff_eq] at haz
    obtain ⟨hdor, haz'⟩ := haz
    obtain ⟨img, himg, hdummy⟩ : ∃ img,
        imageNew (fread content pos (w * h * BLOCK)) (w, h) palette = .ok img ∧
        ((fread content pos (w * h * BLOCK)).length = 0 →
          img = dummyPixbuf (w, h)) := by
      rcases hdor with hfull | hzero
      · refine ⟨_, imageNew_decoded_ok hfull hw hh ?_ hpal, ?_⟩
        · intro b hb
          exact hbytes b (List.drop_subset _ _ (List.take_subset _ _ hb))
        · intro h0
          exact absurd (hfull.symm.trans h0) (Nat.pos_iff_ne_zero.mp hLpos)
      · have hnil : fread content pos (w * h * BLOCK) = [] :=
          List.length_eq_zero.mp hzero
        refine ⟨dummyPixbuf (w, h), ?_, fun _ => rfl⟩
        rw [hnil]
        rfl
    rcases ih (pos + (fread content pos (w * h * BLOCK)).length)
        (sprites ++ [⟨"", os, (w, h), (w, h).1 * (w, h).2 * BLOCK, palette, img⟩])
        (trace ++ [(⟨pos, w * h * BLOCK,
          (fread content pos (w * h * BLOCK)).length⟩ : ReadEvent)])
        haz' with ⟨news, newt, hloop, hnl, hntl, hsp⟩
    refine ⟨⟨"", os, (w, h), (w, h).1 * (w, h).2 * BLOCK, palette, img⟩ :: news,
      ⟨pos, w * h * BLOCK, (fread content pos (w * h * BLOCK)).length⟩ :: newt,
      ?_, ?_, ?_, ?_⟩
    · show (do
        let sprite ← spriteNew (fread content pos (w * h * BLOCK)) os (w, h) palette
        searchLoop content (w, h) palette (w * h * BLOCK) rest
          (pos + (fread content pos (w * h * BLOCK)).length)
          (sprites ++ [sprite])
          (trace ++ [(⟨pos, w * h * BLOCK,
            (fread content pos (w * h * BLOCK)).length⟩ : ReadEvent)])) = _
      rw [spriteNew_ok himg, except_ok_bind, hloop]
      rw [List.append_assoc, List.append_assoc, List.singleton_append,
        List.singleton_append]
    · rw [List.length_cons, hnl, List.length_cons]
    · rw [List.length_cons, hntl, List.length_cons]
    · intro k os_ hk
      cases k with
      | zero =>
        simp only [List.get?_cons_zero, Option.some.injEq] at hk
        subst hk
        exact ⟨_, _, rfl, rfl, rfl, rfl, hdummy⟩
      | succ k =>
        rw [List.get?_cons_succ] at hk
        rw [List.get?_cons_succ, List.get?_cons_succ]
        exact hsp k os_ hk

/-- Unfolding of `ROM.search` on an existing file once the palette has
been decoded successfully and the sprite length is nonzero. -/
theorem search_some_ok {content : List Nat} {offset paloffset qty w h : Nat}
    {palette : Palette}
    (hpal : paletteNew (fread content paloffset 32) paloffset = .ok palette)
    (hL : w * h * BLOCK ≠ 0) :
    search (some content) offset (w, h) paloffset qty =
      searchLoop content (w, h) palette (w * h * BLOCK)
        ((List.range qty).map fun i => offset + i * (w * h * BLOCK)) offset []
        [⟨paloffset, 32, (fread content paloffset 32).length⟩] := by
  show (do
    let palette ← paletteNew (fread content paloffset 32) paloffset
    if w * h * BLOCK = 0 then
      (.error .valueError : Except PyErr (List Sprite × List ReadEvent))
    else
      (searchLoop content (w, h) palette (w * h * BLOCK)
        ((List.range qty).map fun i => offset + i * (w * h * BLOCK)) offset []
        [⟨paloffset, 32, (fread content paloffset 32).length⟩])) = _
  rw [hpal, except_ok_bind, if_neg hL]

/-- C4 (amended): for every readable source holding the full palette and
all sprite data, `search` performs exactly one 32-byte read at
`paletteOffset` followed, per sprite index `i`, by one read of
`length = w * h * 32` bytes issued at position `offset + i * length` (the
sequential cursor lands there because every earlier read returned in
full); the sprites come back in that order, with recorded offsets
`offset + i * length`, all referencing the single palette decoded for the
call. -/
theorem search_read_positions_amended (content : List Nat)
    (offset paloffset qty w h : Nat) (hw : 0 < w) (hh : 0 < h)
    (hbytes : ∀ b ∈ content, b < 256)
    (hpalread : paloffset + 32 ≤ content.length)
    (hdataread : offset + qty * (w * h * BLOCK) ≤ content.length) :
    ∃ sprites trace palette,
      search (some content) offset (w, h) paloffset qty = .ok (sprites, trace) ∧
      paletteNew (fread content paloffset 32) paloffset = .ok palette ∧
      trace = ⟨paloffset, 32, 32⟩ :: (List.range qty).map
        (fun i => ⟨offset + i * (w * h * BLOCK), w * h * BLOCK, w * h * BLOCK⟩) ∧
      sprites.length = qty ∧
      ∀ i, i < qty → ∃ s, sprites.get? i = some s ∧
        s.offset = offset + i * (w * h * BLOCK) ∧ s.palette = palette := by
  have hplen : (fread content paloffset 32).length = 32 := fread_full hpalread
  rcases paletteNew_data32 _ paloffset hplen with ⟨p, hok, _, hp16, _, _⟩
  have hLpos : 0 < w * h * BLOCK :=
    Nat.mul_pos (Nat.mul_pos hw hh) (by norm_num [BLOCK, ROW])
  have hL : w * h * BLOCK ≠ 0 := Nat.pos_iff_ne_zero.mp hLpos
  rcases searchLoop_full hw hh hbytes hp16
      ((List.range qty).map fun i => offset + i * (w * h * BLOCK)) offset []
      [⟨paloffset, 32, (fread content paloffset 32).length⟩]
      (by rw [List.length_map, List.length_range]; exact hdataread)
    with ⟨news, newt, hloop, hnl, hnt, hsp⟩
  rw [List.length_map, List.length_range] at hnl hnt
  refine ⟨[] ++ news,
    [⟨paloffset, 32, (fread content paloffset 32).length⟩] ++ newt, p,
    ?_, hok, ?_, ?_, ?_⟩
  · rw [search_some_ok hok hL, hloop]
  · rw [List.singleton_append, hnt, hplen]
  · rw [List.nil_append, hnl]
  · intro i hi
    have hos : ((List.range qty).map fun i =>
        offset + i * (w * h * BLOCK)).get? i =
        some (offset + i * (w * h * BLOCK)) := by
      rw [List.get?_map, List.get?_range hi]
      rfl
    rcases hsp i _ hos with ⟨s, hsg, hoff, hpal', _, _⟩
    refine ⟨s, ?_, hoff, hpal'⟩
    rw [List.nil_append]
    exact hsg

/-- Witness for C4 (amended): a 96-byte file, palette at 0, two `(1, 1)`
sprites from offset 32; the reads land at 32 and 64. -/
theorem search_read_positions_amended_witness :
    (0 < 1 ∧ (∀ b ∈ (List.replicate 96 0 : List Nat), b < 256) ∧
      0 + 32 ≤ (List.replicate 96 0 : List Nat).length ∧
      32 + 2 * (1 * 1 * BLOCK) ≤ (List.replicate 96 0 : List Nat).length) ∧
    (∃ sprites trace palette,
      search (some (List.replicate 96 0)) 32 (1, 1) 0 2 = .ok (sprites, trace) ∧
      paletteNew (fread (List.replicate 96 0) 0 32) 0 = .ok palette ∧
      trace = ⟨0, 32, 32⟩ :: (List.range 2).map
        (fun i => ⟨32 + i * (1 * 1 * BLOCK), 1 * 1 * BLOCK, 1 * 1 * BLOCK⟩) ∧
      sprites.length = 2 ∧
      ∀ i, i < 2 → ∃ s, sprites.get? i = some s ∧
        s.offset = 32 + i * (1 * 1 * BLOCK) ∧ s.palette = palette) :=
  ⟨⟨by norm_num, by decide, by decide, by decide⟩,
    search_read_positions_amended (List.replicate 96 0) 32 0 2 1 1
      (by norm_num) (by norm_num) (by decide) (by decide) (by decide)⟩

set_option maxRecDepth 40000 in
/-- C4 counterexample: with a 32-byte file (palette only), `offset = 32`,
`size = (1, 1)` and `count = 2`, both sprite reads are issued at
position 32 — the second is not issued at `offset + 1 * length = 64` as
the claim states for every readable source, because the first read
returned zero bytes and the file cursor did not advance.  (The sprites
are still produced, with recorded offsets 32 and 64.) -/
theorem search_read_positions_counterexample :
    ((search (some (List.replicate 32 0)) 32 (1, 1) 0 2).map
      (fun r => (r.1.length, r.2)) =
      .ok (2, [⟨0, 32, 32⟩, ⟨32, 32, 0⟩, ⟨32, 32, 0⟩])) ∧
    ¬ ((32 : Nat) = 32 + 1 * (1 * 1 * BLOCK)) :=
  ⟨by decide, by decide⟩

/-- C8: `search` over a source that cannot be opened (`FileNotFoundError`,
modelled by `none`) returns the empty sprite sequence without
propagating an exception, for every argument combination. -/
theorem search_missing_source (offset paloffset qty w h : Nat) :
    search none offset (w, h) paloffset qty = .ok ([], []) := rfl

set_option maxRecDepth 200000 in
/-- C6 (code behaviour at the failing input): on non-empty `rawData`
shorter than `w * h * 32` the decode loop of `Image.__init__` raises
`IndexError` — not a `TruncatedTileData` error — and, because
`ROM.search` catches only `FileNotFoundError`, the exception aborts the
whole batch: with an 80-byte file the first `(1, 1)` sprite at offset 32
decodes fine, the second read returns only 16 bytes, and the whole call
errors, discarding the first sprite. -/
theorem truncated_tile_data_behavior :
    imageNew (List.replicate 16 0) (1, 1) ⟨0, List.replicate 16 [0, 0, 0]⟩ =
      .error .indexError ∧
    search (some (List.replicate 80 0)) 32 (1, 1) 0 2 = .error .indexError :=
  ⟨by decide, by decide⟩

/-- C7 (code behaviour at the failing input): `Palette.__init__` on a
non-empty input shorter than 32 bytes does not fail with a
`MalformedPalette` error — on an even length it silently truncates (two
bytes give a single color), and on an odd length it raises
`struct.error`, which propagates out of `search` as an exception rather
than an error result; the empty input does return zero colors. -/
theorem short_palette_behavior :
    paletteNew [0, 0] 0 = .ok ⟨0, [[0, 0, 0]]⟩ ∧
    paletteNew [0] 0 = .error .structError ∧
    paletteNew [] 5 = .ok ⟨5, []⟩ ∧
    search (some [0]) 0 (1, 1) 0 1 = .error .structError :=
  ⟨by decide, by decide, by decide, by decide⟩

/-- C9 (amended): on a source that opens and yields the full 32-byte
palette, whenever every sprite read returns either all requested bytes or
zero bytes, `search` returns exactly `count` sprites, and any slot whose
read returned zero bytes holds a sprite whose image is the sentinel
dummy pixbuf rather than being skipped. -/
theorem search_eof_placeholder_amended (content : List Nat)
    (offset paloffset qty w h : Nat) (hw : 0 < w) (hh : 0 < h)
    (hbytes : ∀ b ∈ content, b < 256)
    (hpalread : paloffset + 32 ≤ content.length)
    (haz : allOrZero content (w * h * BLOCK) offset qty = true) :
    ∃ sprites trace,
      search (some content) offset (w, h) paloffset qty = .ok (sprites, trace) ∧
      sprites.length = qty ∧ trace.length = qty + 1 ∧
      ∀ k s e, sprites.get? k = some s → trace.get? (k + 1) = some e →
        e.returned = 0 → s.image = dummyPixbuf (w, h) := by
  have hplen : (fread content paloffset 32).length = 32 := fread_full hpalread
  rcases paletteNew_data32 _ paloffset hplen with ⟨p, hok, _, hp16, _, _⟩
  have hLpos : 0 < w * h * BLOCK :=
    Nat.mul_pos (Nat.mul_pos hw hh) (by norm_num [BLOCK, ROW])
  have hL : w * h * BLOCK ≠ 0 := Nat.pos_iff_ne_zero.mp hLpos
  rcases searchLoop_allOrZero hw hh hbytes hp16
      ((List.range qty).map fun i => offset + i * (w * h * BLOCK)) offset []
      [⟨paloffset, 32, (fread content paloffset 32).length⟩]
      (by rw [List.length_map, List.length_range]; exact haz)
    with ⟨news, newt, hloop, hnl, hntl, hsp⟩
  refine ⟨[] ++ news,
    [⟨paloffset, 32, (fread content paloffset 32).length⟩] ++ newt,
    ?_, ?_, ?_, ?_⟩
  · rw [search_some_ok hok hL, hloop]
  · rw [List.nil_append, hnl, List.length_map, List.length_range]
  · rw [List.singleton_append, List.length_cons, hntl, List.length_map,
      List.length_range]
  · intro k s e hs he hz
    rw [List.nil_append] at hs
    rw [List.singleton_append, List.get?_cons_succ] at he
    have hk : k < qty := by
      rcases List.get?_eq_some.mp hs with ⟨hlt, _⟩
      rw [hnl, List.length_map, List.length_range] at hlt
      exact hlt
    have hos : ((List.range qty).map fun i =>
        offset + i * (w * h * BLOCK)).get? k =
        some (offset + k * (w * h * BLOCK)) := by
      rw [List.get?_map, List.get?_range hk]
      rfl
    rcases hsp k _ hos with ⟨s', e', hs', he', _, _, hdummy⟩
    rw [hs] at hs'
    rw [he] at he'
    have hse : s = s' := Option.some.inj hs'
    have hee : e = e' := Option.some.inj he'
    subst hse hee
    exact hdummy hz

set_option maxRecDepth 40000 in
/-- Witness for C9 (amended): a 32-byte file holding only the palette;
both `(1, 1)` sprite reads at offset 32 return zero bytes, and `search`
returns two placeholder sprites. -/
theorem search_eof_placeholder_amended_witness :
    (0 < 1 ∧ (∀ b ∈ (List.replicate 32 0 : List Nat), b < 256) ∧
      0 + 32 ≤ (List.replicate 32 0 : List Nat).length ∧
      allOrZero (List.replicate 32 0) (1 * 1 * BLOCK) 32 2 = true) ∧
    (∃ sprites trace,
      search (some (List.replicate 32 0)) 32 (1, 1) 0 2 = .ok (sprites, trace) ∧
      sprites.length = 2 ∧ trace.length = 2 + 1 ∧
      ∀ k s e, sprites.get? k = some s → trace.get? (k + 1) = some e →
        e.returned = 0 → s.image = dummyPixbuf (1, 1)) :=
  ⟨⟨by norm_num, by decide, by decide, by decide⟩,
    search_eof_placeholder_amended (List.replicate 32 0) 32 0 2 1 1
      (by norm_num) (by norm_num) (by decide) (by decide) (by decide)⟩

set_option maxRecDepth 40000 in
/-- C9 counterexample: a 32-byte file with `paletteOffset = 32` (palette
read returns zero of its 32 requested bytes) and one `(1, 1)` sprite read
at offset 0 that returns all 32 requested bytes — every read returned
all-or-zero, yet `search` raises `IndexError` (empty palette applied to a
fully decoded tile) instead of returning one sprite. -/
theorem search_eof_counterexample :
    search (some (List.replicate 32 0)) 0 (1, 1) 32 1 = .error .indexError := by
  decide

/-- C10 (amended): on every accessible source whose palette read returns
an even number of bytes (in particular a full 32-byte palette, or an
empty read past end-of-file), `search` with `count = 0` returns the empty
sequence: the 32-byte palette read still occurs, no sprite read is
issued and no sprite is constructed. -/
theorem search_count_zero_amended (content : List Nat)
    (offset paloffset w h : Nat) (hw : 0 < w) (hh : 0 < h)
    (heven : (fread content paloffset 32).length % 2 = 0) :
    search (some content) offset (w, h) paloffset 0 =
      .ok ([], [⟨paloffset, 32, (fread content paloffset 32).length⟩]) := by
  have hk : (fread content paloffset 32).length =
      ((fread content paloffset 32).length / 2) * 2 := by omega
  rcases paletteNew_even_ok _ paloffset _ hk with ⟨p, hok, _, _, _, _⟩
  have hL : w * h * BLOCK ≠ 0 := Nat.pos_iff_ne_zero.mp
    (Nat.mul_pos (Nat.mul_pos hw hh) (by norm_num [BLOCK, ROW]))
  rw [search_some_ok hok hL]
  rfl

/-- Witness for C10 (amended): a 32-byte file, `count = 0`: only the
palette read happens and no sprite is produced. -/
theorem search_count_zero_amended_witness :
    (0 < 1 ∧ (fread (List.replicate 32 0) 0 32).length % 2 = 0) ∧
    search (some (List.replicate 32 0)) 7 (1, 1) 0 0 =
      .ok ([], [⟨0, 32, (fread (List.replicate 32 0) 0 32).length⟩]) :=
  ⟨⟨by norm_num, by decide⟩,
    search_count_zero_amended (List.replicate 32 0) 7 0 1 1
      (by norm_num) (by norm_num) (by decide)⟩

/-- C10 counterexample: a 1-byte accessible file: the palette read returns
a single byte, `struct.unpack` raises `struct.error`, and `search` with
`count = 0` propagates the exception instead of returning an empty
sequence. -/
theorem search_count_zero_counterexample :
    search (some [0]) 0 (1, 1) 0 0 = .error .structError := by decide

/-- Witness for C3: a tile whose first byte is `0x21` and all other bytes
zero unpacks with row 0 equal to `[1, 2, 0, 0, 0, 0, 0, 0]`. -/
theorem tile_unpack_rows_witness :
    ((0x21 :: List.replicate 31 0 : List Nat).length = 32) ∧
    ((tileUnpack (0x21 :: List.replicate 31 0)).length = 8 ∧
      (∀ i, i < 8 → (tileUnpack (0x21 :: List.replicate 31 0)).get? i = some
        [(0x21 :: List.replicate 31 0 : List Nat).getD (4 * i) 0 &&& 0x0F,
         (0x21 :: List.replicate 31 0 : List Nat).getD (4 * i) 0 >>> 4,
         (0x21 :: List.replicate 31 0 : List Nat).getD (4 * i + 1) 0 &&& 0x0F,
         (0x21 :: List.replicate 31 0 : List Nat).getD (4 * i + 1) 0 >>> 4,
         (0x21 :: List.replicate 31 0 : List Nat).getD (4 * i + 2) 0 &&& 0x0F,
         (0x21 :: List.replicate 31 0 : List Nat).getD (4 * i + 2) 0 >>> 4,
         (0x21 :: List.replicate 31 0 : List Nat).getD (4 * i + 3) 0 &&& 0x0F,
         (0x21 :: List.replicate 31 0 : List Nat).getD (4 * i + 3) 0 >>> 4]) ∧
      bytestringE (cut ((cut (0x21 :: List.replicate 31 0) BLOCK).map
        fun b => cut b ROW) 1) (1, 1) =
        .ok (tileUnpack (0x21 :: List.replicate 31 0)).flatten) ∧
    ((tileUnpack (0x21 :: List.replicate 31 0)).get? 0 =
      some [1, 2, 0, 0, 0, 0, 0, 0]) :=
  ⟨rfl, tile_unpack_rows _ rfl, by decide⟩

end GbaSpriteNav
